import Mathlib

/-!
Verification of the homekit-bridge event-loop core against its specification.

The definitions below are shallow embeddings of:
  * the timer registry and run loop of
    `src/platform/esp/components/homekit_adk/port/src/HAPPlatformRunLoop.c`
    (timer insertion, expired-timer processing, the readiness-delivery pass
    over the circular file-handle list, the loopback frame receiver, and
    `HAPPlatformFileHandleUpdateInterests`);
  * the Lua message queue of `src/bridge/src/lmqlib.c`
    (`lmq_size`, `lmq_obj_send`, `lmq_obj_recv`);
  * the Lua socket continuations of `src/unnamed/part_002`
    (`finshconnect`, `finshsend`, `finshrecv`, `lsocket_obj_get`,
    `lsocket_obj_destroy`, `lsocket_obj_gc`);
  * the Lua DNS binding of `src/unnamed/part_003`
    (`ldns_resolve`, `ldns_response_cb`, `finshresolve`).

Machine integers in the C source that matter here (`size_t` indices,
deadlines in `HAPTime`) never overflow in the scenarios modelled, so they
are embedded as `Nat`.
-/

namespace HomekitBridge

/-! ## Timer registry (`HAPPlatformTimerRegister` / `ProcessExpiredTimers`) -/

namespace Timers

/-- One registered timer: the stored deadline (`(*newTimer)->deadline`,
which is `deadline ? deadline : 1`) and the registration order index. -/
structure Timer where
  deadline : Nat
  regId : Nat
deriving DecidableEq, Repr

/-- `HAPPlatformTimerRegister`'s insertion loop: the new timer is inserted
before the first existing node whose deadline satisfies
`(*nextTimer)->deadline > deadline`, where `deadline` is the *raw* argument;
the stored deadline is the coerced `deadline ? deadline : 1`. -/
def timerInsert (raw : Nat) (rid : Nat) : List Timer → List Timer
  | [] => [⟨if raw = 0 then 1 else raw, rid⟩]
  | t :: ts =>
    if t.deadline > raw then ⟨if raw = 0 then 1 else raw, rid⟩ :: t :: ts
    else t :: timerInsert raw rid ts

/-- Register a sequence of timers (given by their raw deadline arguments) in
order, assigning registration ids `n, n+1, ...`. -/
def registerTimers : List Nat → Nat → List Timer → List Timer
  | [], _, ts => ts
  | d :: ds, n, ts => registerTimers ds (n + 1) (timerInsert d n ts)

/-- `ProcessExpiredTimers`: starting from the head of the list, each timer
with `deadline ≤ now` is removed and fired, stopping at the first timer with
`deadline > now`. Returns (fired timers in firing order, remaining list). -/
def processExpiredTimers (now : Nat) : List Timer → List Timer × List Timer
  | [] => ([], [])
  | t :: ts =>
    if t.deadline > now then ([], t :: ts)
    else
      let p := processExpiredTimers now ts
      (t :: p.1, p.2)

end Timers

/-! ## Lua message queue (`lmqlib.c`) -/

namespace MQ

/-- The `lmq_obj` state together with the queue's Lua uservalue: `first`,
`last`, `size` as in the C struct, the buffer table (`uservalue[i]` holds the
tuple of values stored at ring index `i`), and the `wait` field (`none` for
`nil`, `some ws` for a waiter table holding continuation ids in FIFO
order). -/
structure St where
  first : Nat
  last : Nat
  size : Nat
  buf : Nat → Option (List Nat)
  wait : Option (List Nat)

/-- `lmq_size`: `obj->first > obj->last ? obj->size - obj->first + obj->last
: obj->last - obj->first`. The C computes in `size_t` modulo 2^64; on the
reachable index range (`1 ≤ first, last ≤ size + 1`) the value of
`size - first + last` is the non-negative integer `size + last - first`,
which is what is written here (reassociated so `Nat` subtraction does not
truncate). -/
def lmq_size (st : St) : Nat :=
  if st.first > st.last then st.size + st.last - st.first
  else st.last - st.first

/-- Result of `lmq_obj_send`: either every waiter in the (cleared) wait
table was resumed with the sent values, or the tuple was buffered at the
tail, or the call raised "the message queue is full". -/
inductive SendResult where
  | resumed (ws : List Nat) (vals : List Nat) (st : St)
  | buffered (st : St)
  | fullError (st : St)

/-- `lmq_obj_send`: if the `wait` field holds a table, clear it and resume
each waiter in index order with the sent values; otherwise raise if
`lmq_size == obj->size`, else store the tuple at index `last` and advance
`last` through the ring `1 .. size + 1`. -/
def lmq_obj_send (st : St) (vals : List Nat) : SendResult :=
  match st.wait with
  | some ws => .resumed ws vals { st with wait := none }
  | none =>
    if lmq_size st = st.size then .fullError st
    else
      .buffered
        { st with
          buf := fun i => if i = st.last then some vals else st.buf i
          last := if st.last + 1 > st.size + 1 then 1 else st.last + 1 }

/-- Result of `lmq_obj_recv`: either the oldest buffered tuple was
dequeued and returned, or the calling continuation was appended to the
waiter table and yielded. -/
inductive RecvResult where
  | values (vals : List Nat) (st : St)
  | suspended (st : St)

/-- `lmq_obj_recv` for continuation `co`: if `obj->last == obj->first` the
caller is appended to the waiter table (created if `wait` is `nil`) and
yields; otherwise the tuple at index `first` is removed and returned and
`first` advances through the ring `1 .. size + 1`. -/
def lmq_obj_recv (st : St) (co : Nat) : RecvResult :=
  if st.last = st.first then
    match st.wait with
    | none => .suspended { st with wait := some [co] }
    | some ws => .suspended { st with wait := some (ws ++ [co]) }
  else
    .values ((st.buf st.first).getD [])
      { st with
        buf := fun i => if i = st.first then none else st.buf i
        first := if st.first + 1 > st.size + 1 then 1 else st.first + 1 }

/-- State reached after a send that buffered (the other outcomes keep the
argument state). -/
def sendSt (st : St) (vals : List Nat) : St :=
  match lmq_obj_send st vals with
  | .resumed _ _ s => s
  | .buffered s => s
  | .fullError s => s

/-- Whether a send buffered its tuple. -/
def sendBuffered (st : St) (vals : List Nat) : Bool :=
  match lmq_obj_send st vals with
  | .buffered _ => true
  | _ => false

/-- State after a recv (identity on the suspension branch's input save the
wait field). -/
def recvSt (st : St) (co : Nat) : St :=
  match lmq_obj_recv st co with
  | .values _ s => s
  | .suspended s => s

/-- The waiters resumed by a send (`[]` when nothing was resumed). -/
def sentWaiters (r : SendResult) : List Nat :=
  match r with
  | .resumed ws _ _ => ws
  | _ => []

/-- The wait field of the state a send leaves behind. -/
def sendResultWait (r : SendResult) : Option (List Nat) :=
  match r with
  | .resumed _ _ s => s.wait
  | .buffered s => s.wait
  | .fullError s => s.wait

/-- A fresh capacity-1 queue as built by `lmq_create(1)`:
`first = last = 1`, empty buffer table, `wait = nil`. -/
def mq1 : St := ⟨1, 1, 1, fun _ => none, none⟩

end MQ

end HomekitBridge

namespace HomekitBridge

/-! ## Lua socket continuations (`src/unnamed/part_002`) -/

namespace LSocket

/-- Platform socket results (`pal_socket_err`). Only `PAL_SOCKET_ERR_OK`
and `PAL_SOCKET_ERR_IN_PROGRESS` are distinguished by the bindings; further
codes all take the `default` branch and are represented by the remaining
constructors. -/
inductive PalErr where
  | ok
  | inProgress
  | timedOut
  | unknown
deriving DecidableEq, Repr

/-- Outcome of one step of a socket continuation, as seen by the Lua
caller: `ret vals` returns the listed values, `again` re-yields with the
same continuation function (`lua_yieldk` with the same `lua_KFunction`),
`raise e` calls `luaL_error` with `pal_socket_get_error_str(e)`. -/
inductive COut where
  | ret (vals : List Int)
  | again
  | raise (e : PalErr)
deriving DecidableEq, Repr

/-- `finshconnect`: `PAL_SOCKET_ERR_OK` returns no values,
`PAL_SOCKET_ERR_IN_PROGRESS` re-yields with `finshconnect` itself, any
other result raises. -/
def finshconnect : PalErr → COut
  | .ok => .ret []
  | .inProgress => .again
  | e => .raise e

/-- `finshsend` (continuation of `send`, `sendall`, `sendto`): on
`PAL_SOCKET_ERR_OK` it returns 0 values when `all` is set and 1 value (the
sent length at the stack top) otherwise; `PAL_SOCKET_ERR_IN_PROGRESS`
re-yields with `finshsend` itself; any other result raises. -/
def finshsend (all : Bool) (err : PalErr) (sentLen : Int) : COut :=
  match err with
  | .ok => if all then .ret [] else .ret [sentLen]
  | .inProgress => .again
  | e => .raise e

/-- `finshrecv` (continuation of `recv` / `recvfrom`); the resumption
stack is `[-1] = err, [-2] = port, [-3] = addr, [-4] = data`: on
`PAL_SOCKET_ERR_OK` it returns `(data, addr, port)` for `recvfrom` and just
`data` for `recv`; `PAL_SOCKET_ERR_IN_PROGRESS` re-yields with `finshrecv`
itself; any other result raises. -/
def finshrecv (isrecvfrom : Bool) (err : PalErr) (data addr port : Int) : COut :=
  match err with
  | .ok => if isrecvfrom then .ret [data, addr, port] else .ret [data]
  | .inProgress => .again
  | e => .raise e

/-- Drive a suspended connect to its surfaced outcome: the list holds the
result delivered by each successive resumption (the first entry being the
synchronous result of `pal_socket_connect`); `again` steps consume one
entry and re-suspend; `none` means every delivered result was
"in progress" and the continuation is still suspended. -/
def driveConnect : List PalErr → Option COut
  | [] => none
  | e :: es =>
    match finshconnect e with
    | .again => driveConnect es
    | r => some r

/-- Drive a suspended send (`all` as in `finshsend`); each entry is the
`(err, sent_len)` pair delivered by a resumption. -/
def driveSend (all : Bool) : List (PalErr × Int) → Option COut
  | [] => none
  | p :: ps =>
    match finshsend all p.1 p.2 with
    | .again => driveSend all ps
    | r => some r

/-- Drive a suspended recv / recvfrom; each entry is the
`(err, data, addr, port)` tuple delivered by a resumption. -/
def driveRecv (isrecvfrom : Bool) : List (PalErr × Int × Int × Int) → Option COut
  | [] => none
  | p :: ps =>
    match finshrecv isrecvfrom p.1 p.2.1 p.2.2.1 p.2.2.2 with
    | .again => driveRecv isrecvfrom ps
    | r => some r

/-- `lsocket_obj_get`: raises "attemp to use a destroyed socket" when the
userdata's `socket` pointer is `NULL`, otherwise yields the pointer. -/
def lsocket_obj_get : Option Nat → Except String Nat
  | none => .error "attemp to use a destroyed socket"
  | some s => .ok s

/-- The common prologue of every socket method: `lsocket_obj_get` first,
then the method body `rest` applied to the live `pal_socket_obj`. On a
destroyed socket the body — and thus every platform call in it — is never
reached. -/
def lsocket_method (sock : Option Nat) (rest : Nat → Except String (List Nat)) :
    Except String (List Nat) :=
  match lsocket_obj_get sock with
  | .error m => .error m
  | .ok s => rest s

/-- `lsocket_obj_destroy`: `lsocket_obj_get` (raising on an already
destroyed socket), then `pal_socket_destroy(obj->socket)` and
`obj->socket = NULL`. The result carries the new `socket` field and the
list of sockets passed to `pal_socket_destroy`. -/
def lsocket_obj_destroy (sock : Option Nat) : Except String (Option Nat × List Nat) :=
  match lsocket_obj_get sock with
  | .error m => .error m
  | .ok s => .ok (none, [s])

/-- `lsocket_obj_gc` (also bound to `__close`): destroys the platform
socket only if the field is still set, then clears it; never raises. -/
def lsocket_obj_gc (sock : Option Nat) : Option Nat × List Nat :=
  match sock with
  | some s => (none, [s])
  | none => (none, [])

end LSocket

/-! ## Lua DNS binding (`src/unnamed/part_003`) -/

namespace LDns

/-- A Lua value as far as `lua_isstring` is concerned: a string, a number
(which `lua_isstring` also accepts, by coercion), or anything else
(nil, tables, ...). -/
inductive LV where
  | str (s : String)
  | num (n : Int)
  | other
deriving DecidableEq, Repr

/-- `lua_isstring`: true for strings and for numbers (convertible), false
otherwise (and false for an invalid index). -/
def lua_isstring : LV → Bool
  | .str _ => true
  | .num _ => true
  | .other => false

/-- Outcome of `resolve` as seen by the Lua caller. -/
inductive DOut where
  | raise (msg : String)
  | suspended
  | ret (v : LV)
deriving DecidableEq, Repr

/-- `ldns_resolve`: if `pal_dns_start_request` fails, raise immediately;
otherwise `lua_yieldk(L, 0, 0, finshresolve)` — the caller suspends with
the frame's argument stack (hostname, and the family string when one was
passed) left in place. -/
def ldns_resolve (startOk : Bool) : DOut :=
  if startOk then .suspended else .raise "failed to start DNS resolution request"

/-- `ldns_response_cb`: the values pushed onto the suspended coroutine
before resuming it — the resolved address if there is one, nothing
otherwise. -/
def ldns_response_cb (addr : Option String) : List String :=
  match addr with
  | some a => [a]
  | none => []

/-- `finshresolve`: `if (status != 1 || !lua_isstring(L, -1))` raise
"failed to resolve", else `return 1` — i.e. return the value at the top
of the stack. Per `lua_yieldk` semantics the continuation's stack is the
yielded frame's stack (the 0 yielded results removed) with the values
passed to `lua_resume` appended on top; `stack` below is that full stack,
bottom first, so index `-1` is `stack.getLast?`. `LUA_YIELD = 1`. -/
def finshresolve (status : Nat) (stack : List LV) : DOut :=
  match stack.getLast? with
  | some v => if status = 1 ∧ lua_isstring v = true then .ret v else .raise "failed to resolve"
  | none => .raise "failed to resolve"

/-- The full completion path: `ldns_response_cb` pushes the resolved
address (if any) onto the suspended coroutine, whose stack still holds
`resolve`'s own arguments `frame`, and resumes it; the continuation
`finshresolve` then runs with status `LUA_YIELD = 1` on the combined
stack. -/
def resolveAfter (frame : List LV) (addr : Option String) : DOut :=
  finshresolve 1 (frame ++ (ldns_response_cb addr).map LV.str)

end LDns

/-! ## Run-loop registry state and `HAPPlatformFileHandleUpdateInterests` -/

namespace RL

/-- `HAPPlatformFileHandleEvent` interest set. -/
structure Interests where
  isReadyForReading : Bool
  isReadyForWriting : Bool
  hasErrorConditionPending : Bool
deriving DecidableEq

/-- A registered `HAPPlatformFileHandle`. The `prevFileHandle` /
`nextFileHandle` links of the circular list are embedded as the position in
the `fileHandles` list of `LoopState` (sentinel omitted); callback and
context pointers are embedded as opaque numeric ids. -/
structure FileHandle where
  fileDescriptor : Int
  interests : Interests
  callback : Nat
  context : Nat
  isAwaitingEvents : Bool
deriving DecidableEq

/-- The parts of the global `runLoop` state that registration operations
touch: the circular file-handle list (in link order) and the timer list. -/
structure LoopState where
  fileHandles : List FileHandle
  timers : List Timers.Timer
deriving DecidableEq

/-- Apply `f` to the element at position `k`, leaving everything else in
place (the functional reading of mutating one node through a pointer). -/
def updateAt (f : α → α) : Nat → List α → List α
  | _, [] => []
  | 0, x :: xs => f x :: xs
  | k + 1, x :: xs => x :: updateAt f k xs

/-- `HAPPlatformFileHandleUpdateInterests`: through the handle reference
(position `k`), assign the three fields `interests`, `callback`, `context`
and nothing else. -/
def HAPPlatformFileHandleUpdateInterests (st : LoopState) (k : Nat) (i : Interests)
    (cb ctx : Nat) : LoopState :=
  { st with
    fileHandles :=
      updateAt (fun h => { h with interests := i, callback := cb, context := ctx })
        k st.fileHandles }

/-- A concrete two-handle, one-timer loop state used to witness the frame
theorem for `HAPPlatformFileHandleUpdateInterests`. -/
def uiSt : LoopState :=
  ⟨[⟨3, ⟨true, false, false⟩, 1, 2, true⟩, ⟨4, ⟨false, false, true⟩, 9, 9, false⟩], [⟨5, 0⟩]⟩

end RL

/-! ## Loopback channel framing
(`HAPPlatformRunLoopScheduleCallback` / `HandleLoopbackFileHandleCallback`) -/

namespace Loopback

/-- `PIPE_BUF` on the target platform (any POSIX value ≥ 512 gives the same
behaviour here, since frames are at most 8 + 1 + 255 bytes). -/
def PIPE_BUF : Nat := 4096

/-- A frame as serialized by `HAPPlatformRunLoopScheduleCallback`: the
8 callback-pointer bytes, then the 1-byte context size, then the context
bytes. -/
def encodeFrame (cb ctx : List Nat) : List Nat := cb ++ ctx.length :: ctx

/-- `HAPPlatformRunLoopScheduleCallback`: reject contexts larger than
`UINT8_MAX` and frames larger than `PIPE_BUF`, otherwise emit the frame as
one atomic datagram write to the loopback sender descriptor. -/
def HAPPlatformRunLoopScheduleCallback (cb ctx : List Nat) : Option (List Nat) :=
  if ctx.length > 255 then none
  else if ctx.length + 1 + 8 > PIPE_BUF then none
  else some (encodeFrame cb ctx)

/-- Concatenation of the frames of several `ScheduleCallback` calls, in
arrival order at the receiver. -/
def encodeFrames : List (List Nat × List Nat) → List Nat
  | [] => []
  | f :: fs => encodeFrame f.1 f.2 ++ encodeFrames fs

/-- The frame-extraction loop of `HandleLoopbackFileHandleCallback`: while
the buffer holds a full header (`sizeof(HAPPlatformRunLoopCallback) + 1 =
9` bytes) and the full context announced by byte 8, extract the callback
pointer bytes, compact the header away, invoke the callback on the context
bytes now at the front, and compact those away too. Returns the dispatched
`(callback bytes, context bytes)` pairs in order and the residual buffer of
any incomplete trailing frame. -/
def processLoopback (buf : List Nat) : List (List Nat × List Nat) × List Nat :=
  if buf.length < 9 then ([], buf)
  else if buf.length < 9 + buf.getD 8 0 then ([], buf)
  else
    ((buf.take 8, (buf.drop 9).take (buf.getD 8 0)) ::
        (processLoopback ((buf.drop 9).drop (buf.getD 8 0))).1,
      (processLoopback ((buf.drop 9).drop (buf.getD 8 0))).2)
termination_by buf.length
decreasing_by
  all_goals
    simp only [List.length_drop]
    omega

/-- The receiver callback across successive `select` readiness deliveries:
each chunk of bytes read from the loopback descriptor is appended to the
retained buffer, after which all complete frames are dispatched. Returns
all dispatched frames in order and the final retained buffer. -/
def feed : List Nat → List (List Nat) → List (List Nat × List Nat) × List Nat
  | st, [] => ([], st)
  | st, c :: cs =>
    let p := processLoopback (st ++ c)
    let q := feed p.2 cs
    (p.1 ++ q.1, q.2)

end Loopback

/-! ## The readiness-delivery pass (`ProcessSelectedFileHandles`) with
reentrant registration / deregistration

One pass of `ProcessSelectedFileHandles` over the circular file-handle
list is embedded as a cursor walk over `remaining` (the handles from the
cursor to the sentinel) with `visited` the handles already passed. A
callback's behaviour during the pass is its list of `Action`s
(`HAPPlatformFileHandleDeregister` / `HAPPlatformFileHandleRegister`
calls); handles registered during the pass carry no actions because they
are never invoked within it. -/

namespace Pass

/-- `HAPPlatformFileHandleEvent` interest set. -/
structure Ev where
  isReadyForReading : Bool
  isReadyForWriting : Bool
  hasErrorConditionPending : Bool
deriving DecidableEq

/-- One call a dispatched callback makes into the registry:
`HAPPlatformFileHandleDeregister` of the handle with id `target`, or
`HAPPlatformFileHandleRegister` of a new handle (inserted before the
sentinel, i.e. at the tail of the circular list, with
`isAwaitingEvents = false`). -/
inductive Action where
  | dereg (target : Nat)
  | reg (id : Nat) (fd : Nat) (interests : Ev) (hasCallback : Bool)
deriving DecidableEq

/-- A registered file handle as the pass sees it: identity, descriptor,
interests, whether `callback` is non-NULL, the `isAwaitingEvents` flag set
by the select-set building phase, and what its callback does when
invoked. -/
structure FH where
  id : Nat
  fd : Nat
  interests : Ev
  hasCallback : Bool
  awaiting : Bool
  actions : List Action
deriving DecidableEq

/-- The circular list split at the cursor: `visited ++ remaining` is the
list in link order, the cursor pointing at the head of `remaining` (at the
sentinel when `remaining = []`). -/
structure St where
  visited : List FH
  remaining : List FH
deriving DecidableEq

/-- Events of the pass trace: a callback invocation, a deregistration, a
registration. -/
inductive PEv where
  | invoke (id : Nat)
  | dereg (id : Nat)
  | reg (id : Nat)
deriving DecidableEq

/-- The invocation condition of `ProcessSelectedFileHandles`: the callback
is non-NULL and at least one interest bit intersects the signalled
`fd_set`s (`rd`, `wr`, `er` give each descriptor's membership). -/
def FH.ready (rd wr er : Nat → Bool) (h : FH) : Bool :=
  h.hasCallback &&
    ((h.interests.isReadyForReading && rd h.fd) ||
     (h.interests.isReadyForWriting && wr h.fd) ||
     (h.interests.hasErrorConditionPending && er h.fd))

/-- One registry call during dispatch. `Deregister` unlinks the handle
wherever it is and advances the cursor over it when the cursor points at
it — i.e. it disappears from `visited` or `remaining`. `Register` links
the new handle before the sentinel: behind the cursor (end of `remaining`)
when the cursor has not reached the sentinel, otherwise in the finished
part. -/
def applyAction (s : St) : Action → St × PEv
  | .dereg t =>
    (⟨s.visited.filter (fun h => h.id != t), s.remaining.filter (fun h => h.id != t)⟩,
      .dereg t)
  | .reg i fd iv cb =>
    if s.remaining.isEmpty then
      (⟨s.visited ++ [⟨i, fd, iv, cb, false, []⟩], s.remaining⟩, .reg i)
    else
      (⟨s.visited, s.remaining ++ [⟨i, fd, iv, cb, false, []⟩]⟩, .reg i)

/-- Run a callback's registry calls in order, collecting their events. -/
def applyActions (s : St) : List Action → St × List PEv
  | [] => (s, [])
  | a :: acts =>
    ((applyActions (applyAction s a).1 acts).1,
      (applyAction s a).2 :: (applyActions (applyAction s a).1 acts).2)

/-- Pending callback work among the not-yet-visited handles (termination
measure component for `runPass`). -/
def awaitWork (l : List FH) : Nat :=
  (l.map (fun h => if h.awaiting then h.actions.length else 0)).sum

/-- Termination measure of the pass: cursor distance to the sentinel plus
twice the pending callback work (a registration performed by a callback
lengthens `remaining` by one but is paid for by the invoked handle's
consumed actions). -/
def St.wt (s : St) : Nat := s.remaining.length + 2 * awaitWork s.remaining

lemma awaitWork_append (l1 l2 : List FH) :
    awaitWork (l1 ++ l2) = awaitWork l1 + awaitWork l2 := by
  simp [awaitWork]

lemma awaitWork_cons (h : FH) (l : List FH) :
    awaitWork (h :: l) = (if h.awaiting then h.actions.length else 0) + awaitWork l := by
  simp [awaitWork]

lemma awaitWork_filter_le (p : FH → Bool) (l : List FH) :
    awaitWork (l.filter p) ≤ awaitWork l := by
  induction l with
  | nil => simp [awaitWork]
  | cons x xs ih =>
    rw [List.filter_cons, awaitWork_cons]
    by_cases hp : p x = true
    · rw [if_pos hp, awaitWork_cons]
      exact Nat.add_le_add_left ih _
    · rw [if_neg hp]
      exact le_trans ih (Nat.le_add_left _ _)

lemma applyAction_wt (s : St) (a : Action) :
    (applyAction s a).1.wt ≤ s.wt + 1 := by
  cases a with
  | dereg t =>
    have h1 := List.length_filter_le (fun h => h.id != t) s.remaining
    have h2 := awaitWork_filter_le (fun h => h.id != t) s.remaining
    simp only [applyAction, St.wt]
    omega
  | reg i fd iv cb =>
    simp only [applyAction]
    by_cases he : s.remaining.isEmpty
    · rw [if_pos he]
      simp [St.wt]
    · rw [if_neg he]
      simp only [St.wt, List.length_append, awaitWork_append, List.length_cons,
        List.length_nil, awaitWork_cons, awaitWork, List.map_nil, List.sum_nil]
      simp
      omega

lemma applyActions_wt (acts : List Action) : ∀ s : St,
    (applyActions s acts).1.wt ≤ s.wt + acts.length := by
  induction acts with
  | nil => intro s; simp [applyActions]
  | cons a acts ih =>
    intro s
    calc (applyActions (applyAction s a).1 acts).1.wt
        ≤ (applyAction s a).1.wt + acts.length := ih _
      _ ≤ s.wt + 1 + acts.length := Nat.add_le_add_right (applyAction_wt s a) _
      _ = s.wt + (a :: acts).length := by simp [Nat.add_assoc, Nat.add_comm]

/-- The cursor loop of `ProcessSelectedFileHandles`: take the handle under
the cursor, advance the cursor first (`runLoop.fileHandleCursor =
fileHandle->nextFileHandle`), then — when the handle was awaiting events —
clear the flag and, when callback and signalled events warrant it, invoke
the callback (running its registry calls). Produces the post-pass list
state and the event trace. -/
def runPass (rd wr er : Nat → Bool) (s : St) : St × List PEv :=
  match s with
  | ⟨vis, []⟩ => (⟨vis, []⟩, [])
  | ⟨vis, h :: rest⟩ =>
    if ha : h.awaiting then
      if hr : FH.ready rd wr er h then
        ((runPass rd wr er
            (applyActions ⟨vis ++ [{h with awaiting := false}], rest⟩ h.actions).1).1,
          .invoke h.id ::
            ((applyActions ⟨vis ++ [{h with awaiting := false}], rest⟩ h.actions).2 ++
              (runPass rd wr er
                (applyActions ⟨vis ++ [{h with awaiting := false}], rest⟩ h.actions).1).2))
      else
        runPass rd wr er ⟨vis ++ [{h with awaiting := false}], rest⟩
    else
      runPass rd wr er ⟨vis ++ [h], rest⟩
termination_by s.wt
decreasing_by
  · have h1 := applyActions_wt h.actions ⟨vis ++ [{h with awaiting := false}], rest⟩
    simp only [St.wt, awaitWork_cons, List.length_cons, ha, if_pos] at h1 ⊢
    omega
  · simp only [St.wt, awaitWork_cons, List.length_cons, ha, if_pos]
    omega
  · simp only [St.wt, awaitWork_cons, List.length_cons, ha]
    simp only [Bool.false_eq_true, if_false]
    omega

/-- Ids of the handles that are still awaiting events (only these can be
invoked by the rest of the pass). -/
def aIds (l : List FH) : List Nat := (l.filter (fun h => h.awaiting)).map FH.id

/-- An action registers no handle whose id is already in `ids`. -/
def regFresh (ids : List Nat) : Action → Bool
  | .reg i _ _ _ => !(ids.contains i)
  | .dereg _ => true

/-- No callback invocation occurs after the same handle's deregistration
in the trace. -/
def noInvokeAfterDereg : List PEv → Prop
  | [] => True
  | .dereg x :: tl => PEv.invoke x ∉ tl ∧ noInvokeAfterDereg tl
  | _ :: tl => noInvokeAfterDereg tl

/-- A three-handle registration where the first handle's callback
deregisters the second handle and registers a fresh one; used to witness
the pass-safety theorem. -/
def exHandles : List FH :=
  [⟨1, 10, ⟨true, false, false⟩, true, true,
      [Action.dereg 2, Action.reg 5 50 ⟨true, false, false⟩ true]⟩,
   ⟨2, 20, ⟨true, false, false⟩, true, true, []⟩,
   ⟨3, 30, ⟨true, false, false⟩, true, true, []⟩]

end Pass

/-! ## Theorems for claims C1, C3, C4 -/

open Timers MQ

/-- Claim C1 (evaluation at the failing input): registering two timers with
deadline 0 stores both with deadline 1, yet the second-registered timer is
inserted before the first (the insertion compares stored deadlines against
the raw argument 0), so the timers fire in the order `[1, 0]` — the reverse
of registration order — even though their stored deadlines are equal. -/
theorem timer_zero_deadline_breaks_registration_order :
    (registerTimers [0, 0] 0 []).map (fun t => (t.deadline, t.regId)) = [(1, 1), (1, 0)] ∧
    (processExpiredTimers 5 (registerTimers [0, 0] 0 [])).1.map Timer.regId = [1, 0] := by
  constructor <;> rfl

/-- Claim C3 (counterexample): on a queue whose wait table holds two
waiters `[1, 2]`, `send` resumes *both* waiters (not just the oldest) and
clears the wait table, so waiter `2` does not remain waiting as the claim
requires. -/
theorem mq_send_resumes_all_waiters_cex :
    sentWaiters (lmq_obj_send ⟨1, 1, 1, fun _ => none, some [1, 2]⟩ [42]) = [1, 2] ∧
    sentWaiters (lmq_obj_send ⟨1, 1, 1, fun _ => none, some [1, 2]⟩ [42]) ≠ [1] ∧
    sendResultWait (lmq_obj_send ⟨1, 1, 1, fun _ => none, some [1, 2]⟩ [42]) = none := by
  refine ⟨rfl, ?_, rfl⟩
  decide

/-- Claim C3 (amended): whenever `send` is called on a queue whose wait
field holds a waiter table, the *entire* table is cleared and every waiter
is resumed, in FIFO order, each with exactly the sent values; no value is
buffered and the ring indices and buffer are untouched. -/
theorem mq_send_broadcasts_to_all_waiters (st : St) (vals : List Nat) (ws : List Nat)
    (h : st.wait = some ws) :
    lmq_obj_send st vals = .resumed ws vals { st with wait := none } := by
  unfold lmq_obj_send
  rw [h]

/-- Witness for `mq_send_broadcasts_to_all_waiters` at a concrete queue. -/
theorem mq_send_broadcasts_to_all_waiters_witness :
    (⟨1, 1, 1, fun _ => none, some [1, 2]⟩ : St).wait = some [1, 2] ∧
    lmq_obj_send ⟨1, 1, 1, fun _ => none, some [1, 2]⟩ [42] =
      .resumed [1, 2] [42] { (⟨1, 1, 1, fun _ => none, some [1, 2]⟩ : St) with wait := none } :=
  ⟨rfl, mq_send_broadcasts_to_all_waiters _ [42] [1, 2] rfl⟩

/-- Claim C4 (evaluation at the failing input): on a capacity-1 queue,
after `send(7); recv()` the state is empty (size 0, no waiter) with
`first = last = 2`; from there the first send succeeds, and the second
consecutive send — which the claim requires to fail with "queue full" —
*also succeeds*, because `lmq_size` computes 0 for the wrapped-around
one-element state (`first = 2 > last = 1` gives `size - first + last = 0`). -/
theorem mq_capacity_overflow_after_wrap :
    lmq_size (recvSt (sendSt mq1 [7]) 99) = 0 ∧
    (recvSt (sendSt mq1 [7]) 99).wait = none ∧
    (recvSt (sendSt mq1 [7]) 99).first = 2 ∧
    sendBuffered (recvSt (sendSt mq1 [7]) 99) [8] = true ∧
    lmq_size (sendSt (recvSt (sendSt mq1 [7]) 99) [8]) = 0 ∧
    sendBuffered (sendSt (recvSt (sendSt mq1 [7]) 99) [8]) [9] = true := by
  refine ⟨rfl, rfl, rfl, rfl, rfl, rfl⟩

/-! ## Theorems for claims C6, C7, C8, C9 -/

open LSocket LDns

lemma driveConnect_replicate (k : Nat) (es : List PalErr) :
    driveConnect (List.replicate k .inProgress ++ es) = driveConnect es := by
  induction k with
  | zero => rfl
  | succ k ih => exact ih

lemma driveSend_replicate (all : Bool) (k : Nat) (z : Int) (ss : List (PalErr × Int)) :
    driveSend all (List.replicate k (.inProgress, z) ++ ss) = driveSend all ss := by
  induction k with
  | zero => rfl
  | succ k ih => exact ih

lemma driveRecv_replicate (isrecvfrom : Bool) (k : Nat) (t : Int × Int × Int)
    (ss : List (PalErr × Int × Int × Int)) :
    driveRecv isrecvfrom (List.replicate k (.inProgress, t) ++ ss) = driveRecv isrecvfrom ss := by
  induction k with
  | zero => rfl
  | succ k ih => exact ih

lemma driveConnect_surfaced (es : List PalErr) (r : COut) (h : driveConnect es = some r) :
    r ≠ .again ∧ r ≠ .raise .inProgress := by
  induction es with
  | nil => simp [driveConnect] at h
  | cons e es ih =>
    cases e with
    | ok => cases h; exact ⟨by simp, by simp⟩
    | inProgress => exact ih h
    | timedOut => cases h; exact ⟨by simp, by simp⟩
    | unknown => cases h; exact ⟨by simp, by simp⟩

lemma driveSend_surfaced (all : Bool) (ss : List (PalErr × Int)) (r : COut)
    (h : driveSend all ss = some r) : r ≠ .again ∧ r ≠ .raise .inProgress := by
  induction ss with
  | nil => simp [driveSend] at h
  | cons p ps ih =>
    obtain ⟨e, z⟩ := p
    cases e with
    | ok =>
      cases all with
      | true => cases h; exact ⟨by simp, by simp⟩
      | false => cases h; exact ⟨by simp, by simp⟩
    | inProgress => exact ih h
    | timedOut => cases h; exact ⟨by simp, by simp⟩
    | unknown => cases h; exact ⟨by simp, by simp⟩

lemma driveRecv_surfaced (isrecvfrom : Bool) (ss : List (PalErr × Int × Int × Int)) (r : COut)
    (h : driveRecv isrecvfrom ss = some r) : r ≠ .again ∧ r ≠ .raise .inProgress := by
  induction ss with
  | nil => simp [driveRecv] at h
  | cons p ps ih =>
    obtain ⟨e, z⟩ := p
    cases e with
    | ok =>
      cases isrecvfrom with
      | true => cases h; exact ⟨by simp, by simp⟩
      | false => cases h; exact ⟨by simp, by simp⟩
    | inProgress => exact ih h
    | timedOut => cases h; exact ⟨by simp, by simp⟩
    | unknown => cases h; exact ⟨by simp, by simp⟩

/-- Claim C6: whenever a suspended socket operation (connect, or any of the
send / sendall / sendto family, or recv / recvfrom) is resumed with a
result meaning "still in progress", the continuation re-suspends on the
same continuation function, so any number of leading in-progress results
leaves the surfaced outcome unchanged; and an outcome that does surface is
never the bare re-suspension and never an "in progress" raise — in
particular an in-progress result is never returned as a value nor raised
as an error. -/
theorem socket_in_progress_resuspends :
    (∀ k es, driveConnect (List.replicate k .inProgress ++ es) = driveConnect es) ∧
    (∀ all k z ss, driveSend all (List.replicate k (.inProgress, z) ++ ss) = driveSend all ss) ∧
    (∀ isrecvfrom k t ss,
      driveRecv isrecvfrom (List.replicate k (.inProgress, t) ++ ss) = driveRecv isrecvfrom ss) ∧
    (∀ es r, driveConnect es = some r → r ≠ .again ∧ r ≠ .raise .inProgress) ∧
    (∀ all ss r, driveSend all ss = some r → r ≠ .again ∧ r ≠ .raise .inProgress) ∧
    (∀ isrecvfrom ss r, driveRecv isrecvfrom ss = some r → r ≠ .again ∧ r ≠ .raise .inProgress) :=
  ⟨driveConnect_replicate, driveSend_replicate, driveRecv_replicate,
   driveConnect_surfaced, driveSend_surfaced, driveRecv_surfaced⟩

/-- Witness for `socket_in_progress_resuspends`: a connect resumed twice
with "in progress" and then with success surfaces a plain return. -/
theorem socket_in_progress_resuspends_witness :
    driveConnect [.inProgress, .inProgress, .ok] = some (.ret []) ∧
    (COut.ret [] ≠ .again ∧ COut.ret [] ≠ .raise .inProgress) :=
  ⟨rfl, socket_in_progress_resuspends.2.2.2.1 [.inProgress, .inProgress, .ok] (.ret []) rfl⟩

/-- Claim C7 (counterexample): destroying a live socket succeeds and clears
the field, but a *second* destroy on the now-destroyed socket raises
"attemp to use a destroyed socket" instead of succeeding with no effect —
`lsocket_obj_destroy` begins with `lsocket_obj_get`, which rejects a
destroyed socket like every other method. -/
theorem socket_destroy_not_idempotent_cex :
    lsocket_obj_destroy (some 7) = .ok (none, [7]) ∧
    lsocket_obj_destroy none = .error "attemp to use a destroyed socket" :=
  ⟨rfl, rfl⟩

/-- Claim C7 (amended): every operation on a destroyed socket — including
a second explicit destroy, which is therefore *not* idempotent — fails with
the "attemp to use a destroyed socket" error without reaching its body, and
so without touching the underlying platform socket; only the garbage
collection / `__close` finalizer `lsocket_obj_gc` is idempotent (it
destroys the platform socket exactly once). -/
theorem socket_destroyed_ops_fail :
    (∀ rest, lsocket_method none rest = .error "attemp to use a destroyed socket") ∧
    lsocket_obj_destroy none = .error "attemp to use a destroyed socket" ∧
    lsocket_obj_gc none = (none, []) ∧
    (∀ s, lsocket_obj_gc (some s) = (none, [s])) :=
  ⟨fun _ => rfl, rfl, rfl, fun _ => rfl⟩

/-- Claim C8 (counterexample): a successful `sendall` of a 5-byte buffer
returns *no* values (`finshsend` with `all = true` returns 0 results on
`PAL_SOCKET_ERR_OK`), not a byte count equal to the input length. -/
theorem sendall_returns_no_count_cex :
    finshsend true .ok 5 = .ret [] ∧ COut.ret [] ≠ .ret [5] :=
  ⟨rfl, by decide⟩

/-- Claim C8 (amended): on successful completion `sendall` returns no
values at all (the byte count is discarded), while the plain `send`
returns exactly one value, the actual byte count written by the single
(possibly partial) write. -/
theorem send_success_return_values (n : Int) :
    finshsend false .ok n = .ret [n] ∧ finshsend true .ok n = .ret [] :=
  ⟨rfl, rfl⟩

/-- Claim C9 (evaluation at the failing input): `resolve` does raise
immediately when the platform request fails to start, suspends otherwise,
and a resumption carrying an address returns that address; but when the
completion callback delivers *no* address, the continuation's stack still
holds the yielded frame's own arguments (`lua_yieldk` removes only the 0
yielded results), so `lua_isstring(L, -1)` sees the leftover family
argument string "IPV4" and `resolve` returns that junk string instead of
raising "failed to resolve" — the error branch the claim (and the error
message in the code) intends is not taken. -/
theorem dns_resolve_no_address_returns_junk :
    ldns_resolve false = .raise "failed to start DNS resolution request" ∧
    ldns_resolve true = .suspended ∧
    (∀ a, resolveAfter [.str "example.com", .str "IPV4"] (some a) = .ret (.str a)) ∧
    resolveAfter [.str "example.com", .str "IPV4"] none = .ret (.str "IPV4") ∧
    resolveAfter [.str "example.com", .str "IPV4"] none ≠ .raise "failed to resolve" := by
  refine ⟨rfl, rfl, ?_, rfl, by decide⟩
  intro a
  simp [resolveAfter, finshresolve, ldns_response_cb, lua_isstring]

/-! ## Theorems for claim C10 -/

open RL

lemma updateAt_length (f : α → α) : ∀ (k : Nat) (l : List α),
    (updateAt f k l).length = l.length := by
  intro k l
  induction l generalizing k with
  | nil => cases k <;> rfl
  | cons x xs ih =>
    cases k with
    | zero => rfl
    | succ k => simpa [updateAt] using ih k

lemma updateAt_get (f : α → α) : ∀ (l : List α) (k j : Nat)
    (hj : j < l.length) (hj2 : j < (updateAt f k l).length),
    (updateAt f k l).get ⟨j, hj2⟩ =
      if j = k then f (l.get ⟨j, hj⟩) else l.get ⟨j, hj⟩ := by
  intro l
  induction l with
  | nil => intro k j hj _; exact absurd hj (by simp)
  | cons x xs ih =>
    intro k j hj hj2
    cases k with
    | zero =>
      cases j with
      | zero => simp [updateAt]
      | succ j => simp [updateAt]
    | succ k =>
      cases j with
      | zero => simp [updateAt]
      | succ j =>
        have hj1 : j < xs.length := by simpa using hj
        have hj3 : j < (updateAt f k xs).length := by
          rw [updateAt_length]; exact hj1
        simpa [updateAt, Nat.succ_inj] using ih k j hj1 hj3

/-- Claim C10: `HAPPlatformFileHandleUpdateInterests` on the handle at
position `k` leaves the timer list untouched, preserves the length and the
order of the file-handle list (hence every handle's links and position),
leaves every other handle entirely unchanged, and on the target handle
changes only the interest set, callback and context — its file descriptor
and awaiting-events flag are preserved. -/
theorem update_interests_frame (st : LoopState) (k : Nat) (i : Interests) (cb ctx : Nat) :
    (HAPPlatformFileHandleUpdateInterests st k i cb ctx).timers = st.timers ∧
    (HAPPlatformFileHandleUpdateInterests st k i cb ctx).fileHandles.length =
      st.fileHandles.length ∧
    (∀ (j : Nat) (hj : j < st.fileHandles.length)
        (hj2 : j < (HAPPlatformFileHandleUpdateInterests st k i cb ctx).fileHandles.length),
      j ≠ k →
      (HAPPlatformFileHandleUpdateInterests st k i cb ctx).fileHandles.get ⟨j, hj2⟩ =
        st.fileHandles.get ⟨j, hj⟩) ∧
    (∀ (hk : k < st.fileHandles.length)
        (hk2 : k < (HAPPlatformFileHandleUpdateInterests st k i cb ctx).fileHandles.length),
      (HAPPlatformFileHandleUpdateInterests st k i cb ctx).fileHandles.get ⟨k, hk2⟩ =
        { st.fileHandles.get ⟨k, hk⟩ with interests := i, callback := cb, context := ctx }) := by
  refine ⟨rfl, updateAt_length _ k st.fileHandles, ?_, ?_⟩
  · intro j hj hj2 hjk
    have hj3 : j < (updateAt
        (fun h => { h with interests := i, callback := cb, context := ctx })
        k st.fileHandles).length := hj2
    have := updateAt_get
      (fun h => { h with interests := i, callback := cb, context := ctx })
      st.fileHandles k j hj hj3
    simpa [HAPPlatformFileHandleUpdateInterests, hjk] using this
  · intro hk hk2
    have hk3 : k < (updateAt
        (fun h => { h with interests := i, callback := cb, context := ctx })
        k st.fileHandles).length := hk2
    have := updateAt_get
      (fun h => { h with interests := i, callback := cb, context := ctx })
      st.fileHandles k k hk hk3
    simpa [HAPPlatformFileHandleUpdateInterests] using this

/-- Witness for `update_interests_frame` at `uiSt` with target handle 0:
handle 1 is unchanged and handle 0 keeps its descriptor and awaiting flag
while taking the new interests, callback and context. -/
theorem update_interests_frame_witness :
    (1 : Nat) ≠ 0 ∧
    (HAPPlatformFileHandleUpdateInterests uiSt 0 ⟨false, true, false⟩ 7 8).fileHandles.get
        ⟨1, by decide⟩ = uiSt.fileHandles.get ⟨1, by decide⟩ ∧
    (HAPPlatformFileHandleUpdateInterests uiSt 0 ⟨false, true, false⟩ 7 8).fileHandles.get
        ⟨0, by decide⟩ =
      { uiSt.fileHandles.get ⟨0, by decide⟩ with
        interests := ⟨false, true, false⟩, callback := 7, context := 8 } :=
  ⟨by decide,
   (update_interests_frame uiSt 0 ⟨false, true, false⟩ 7 8).2.2.1 1 (by decide) (by decide)
     (by decide),
   (update_interests_frame uiSt 0 ⟨false, true, false⟩ 7 8).2.2.2 (by decide) (by decide)⟩

/-! ## Theorems for claim C5 -/

open Loopback

lemma processLoopback_stop (b : List Nat)
    (h : b.length < 9 ∨ b.length < 9 + b.getD 8 0) :
    processLoopback b = ([], b) := by
  rw [processLoopback]
  by_cases h9 : b.length < 9
  · rw [if_pos h9]
  · rw [if_neg h9, if_pos (h.resolve_left h9)]

lemma processLoopback_step (b : List Nat) (h9 : ¬ b.length < 9)
    (hf : ¬ b.length < 9 + b.getD 8 0) :
    processLoopback b =
      ((b.take 8, (b.drop 9).take (b.getD 8 0)) ::
          (processLoopback ((b.drop 9).drop (b.getD 8 0))).1,
        (processLoopback ((b.drop 9).drop (b.getD 8 0))).2) := by
  conv_lhs => rw [processLoopback]
  rw [if_neg h9, if_neg hf]

lemma processLoopback_snd_stuck (b : List Nat) :
    processLoopback (processLoopback b).2 = ([], (processLoopback b).2) := by
  induction b using processLoopback.induct with
  | case1 b h =>
    rw [processLoopback_stop b (Or.inl h)]
    exact processLoopback_stop b (Or.inl h)
  | case2 b h9 h =>
    rw [processLoopback_stop b (Or.inr h)]
    exact processLoopback_stop b (Or.inr h)
  | case3 b h9 hf ih =>
    rw [processLoopback_step b h9 hf]
    exact ih

lemma processLoopback_append (b c : List Nat) :
    processLoopback (b ++ c) =
      ((processLoopback b).1 ++ (processLoopback ((processLoopback b).2 ++ c)).1,
        (processLoopback ((processLoopback b).2 ++ c)).2) := by
  induction b using processLoopback.induct with
  | case1 b h =>
    rw [processLoopback_stop b (Or.inl h)]
    simp
  | case2 b h9 h =>
    rw [processLoopback_stop b (Or.inr h)]
    simp
  | case3 b h9 hf ih =>
    have hlen : 9 + b.getD 8 0 ≤ b.length := Nat.le_of_not_lt hf
    have h8 : (8 : Nat) < b.length := by omega
    have hgd : (b ++ c).getD 8 0 = b.getD 8 0 := List.getD_append b c 0 8 h8
    have h9' : ¬ (b ++ c).length < 9 := by
      simp only [List.length_append]; omega
    have hf' : ¬ (b ++ c).length < 9 + (b ++ c).getD 8 0 := by
      rw [hgd]; simp only [List.length_append]; omega
    have hdr9 : (b ++ c).drop 9 = b.drop 9 ++ c :=
      List.drop_append_of_le_length (by omega)
    have htk8 : (b ++ c).take 8 = b.take 8 :=
      List.take_append_of_le_length (by omega)
    have hctx : ((b ++ c).drop 9).take (b.getD 8 0) = (b.drop 9).take (b.getD 8 0) := by
      rw [hdr9]
      exact List.take_append_of_le_length (by simp only [List.length_drop]; omega)
    have hrest : ((b ++ c).drop 9).drop (b.getD 8 0) =
        (b.drop 9).drop (b.getD 8 0) ++ c := by
      rw [hdr9]
      exact List.drop_append_of_le_length (by simp only [List.length_drop]; omega)
    rw [processLoopback_step (b ++ c) h9' hf', hgd, htk8, hctx, hrest, ih,
      processLoopback_step b h9 hf]
    simp

lemma feed_offline (chunks : List (List Nat)) : ∀ st : List Nat,
    processLoopback st = ([], st) →
    feed st chunks =
      ((processLoopback (st ++ chunks.flatten)).1,
        (processLoopback (st ++ chunks.flatten)).2) := by
  induction chunks with
  | nil =>
    intro st hst
    simpa [feed] using hst.symm
  | cons c cs ih =>
    intro st hst
    have h1 := ih (processLoopback (st ++ c)).2 (processLoopback_snd_stuck (st ++ c))
    have h2 := processLoopback_append (st ++ c) cs.flatten
    simp only [feed, h1]
    rw [List.flatten_cons, ← List.append_assoc, h2]

lemma processLoopback_encodeFrames (fs : List (List Nat × List Nat))
    (h : ∀ f ∈ fs, (f.1).length = 8) :
    processLoopback (encodeFrames fs) = (fs, []) := by
  induction fs with
  | nil => exact processLoopback_stop [] (Or.inl (by simp))
  | cons f fs ih =>
    have hcb : (f.1).length = 8 := h f (by simp)
    have hb : encodeFrames (f :: fs) = f.1 ++ f.2.length :: (f.2 ++ encodeFrames fs) := by
      simp [encodeFrames, encodeFrame]
    have hlen : (encodeFrames (f :: fs)).length =
        9 + f.2.length + (encodeFrames fs).length := by
      rw [hb]
      simp [hcb]
      omega
    have hgd : (encodeFrames (f :: fs)).getD 8 0 = f.2.length := by
      rw [hb, List.getD_append_right f.1 _ 0 8 (by omega)]
      simp [hcb]
    have h9 : ¬ (encodeFrames (f :: fs)).length < 9 := by omega
    have hf : ¬ (encodeFrames (f :: fs)).length <
        9 + (encodeFrames (f :: fs)).getD 8 0 := by
      rw [hgd]; omega
    rw [processLoopback_step _ h9 hf, hgd]
    have htk : (encodeFrames (f :: fs)).take 8 = f.1 := by
      rw [hb, List.take_left' hcb]
    have hdr : (encodeFrames (f :: fs)).drop 9 = f.2 ++ encodeFrames fs := by
      rw [hb, List.drop_append_eq_append_drop]
      simp [hcb]
    rw [htk, hdr, List.take_left' rfl, List.drop_left' rfl,
      ih (fun g hg => h g (by simp [hg]))]

/-- Claim C5: for any sequence of frames written through the loopback
channel (8 callback-pointer bytes, 1 context-size byte which is the length
of the at-most-255-byte context, then the context), however the byte stream
is split into reads — several reads per frame or several frames per read —
the receiver dispatches exactly one callback per complete frame, in arrival
order, with the context bytes intact and the context size as written, and
retains the bytes of an incomplete trailing frame (any `t` in which the
extraction loop finds no complete frame) in its buffer. -/
theorem loopback_frames_dispatch_in_order (fs : List (List Nat × List Nat))
    (chunks : List (List Nat)) (t : List Nat)
    (hok : ∀ f ∈ fs, (f.1).length = 8 ∧ (f.2).length ≤ 255)
    (hj : chunks.flatten = encodeFrames fs ++ t)
    (ht : processLoopback t = ([], t)) :
    feed [] chunks = (fs, t) := by
  have h0 : processLoopback ([] : List Nat) = ([], []) :=
    processLoopback_stop [] (Or.inl (by simp))
  rw [feed_offline chunks [] h0]
  simp only [List.nil_append, hj]
  rw [processLoopback_append (encodeFrames fs) t,
    processLoopback_encodeFrames fs (fun f hf => (hok f hf).1)]
  simp [ht]

/-- Witness for `loopback_frames_dispatch_in_order`: one frame with a
two-byte context, delivered across three reads that split the frame
mid-header and mid-context, is dispatched once with its context intact. -/
theorem loopback_frames_dispatch_in_order_witness :
    (∀ f ∈ ([(([0, 1, 2, 3, 4, 5, 6, 7] : List Nat), ([9, 9] : List Nat))] :
        List (List Nat × List Nat)), (f.1).length = 8 ∧ (f.2).length ≤ 255) ∧
    ([[0, 1, 2], [3, 4, 5, 6, 7, 2, 9], [9]] : List (List Nat)).flatten =
      encodeFrames [([0, 1, 2, 3, 4, 5, 6, 7], [9, 9])] ++ [] ∧
    processLoopback [] = ([], []) ∧
    feed [] [[0, 1, 2], [3, 4, 5, 6, 7, 2, 9], [9]] =
      ([([0, 1, 2, 3, 4, 5, 6, 7], [9, 9])], []) :=
  ⟨by decide, by decide, processLoopback_stop [] (Or.inl (by simp)),
   loopback_frames_dispatch_in_order _ _ _ (by decide) (by decide)
     (processLoopback_stop [] (Or.inl (by simp)))⟩


/-! ## Theorems for claim C2 -/

open Pass

lemma runPass_nil (rd wr er : Nat → Bool) (vis : List FH) :
    runPass rd wr er ⟨vis, []⟩ = (⟨vis, []⟩, []) := by
  rw [runPass]

lemma runPass_skip (rd wr er : Nat → Bool) (vis : List FH) (h : FH) (rest : List FH)
    (ha : ¬ h.awaiting = true) :
    runPass rd wr er ⟨vis, h :: rest⟩ = runPass rd wr er ⟨vis ++ [h], rest⟩ := by
  conv_lhs => rw [runPass]
  rw [dif_neg ha]

lemma runPass_noready (rd wr er : Nat → Bool) (vis : List FH) (h : FH) (rest : List FH)
    (ha : h.awaiting = true) (hr : ¬ FH.ready rd wr er h = true) :
    runPass rd wr er ⟨vis, h :: rest⟩ =
      runPass rd wr er ⟨vis ++ [{h with awaiting := false}], rest⟩ := by
  conv_lhs => rw [runPass]
  rw [dif_pos ha, dif_neg hr]

lemma runPass_invoke_eq (rd wr er : Nat → Bool) (vis : List FH) (h : FH) (rest : List FH)
    (ha : h.awaiting = true) (hr : FH.ready rd wr er h = true) :
    runPass rd wr er ⟨vis, h :: rest⟩ =
      ((runPass rd wr er
          (applyActions ⟨vis ++ [{h with awaiting := false}], rest⟩ h.actions).1).1,
        .invoke h.id ::
          ((applyActions ⟨vis ++ [{h with awaiting := false}], rest⟩ h.actions).2 ++
            (runPass rd wr er
              (applyActions ⟨vis ++ [{h with awaiting := false}], rest⟩ h.actions).1).2)) := by
  conv_lhs => rw [runPass]
  rw [dif_pos ha, dif_pos hr]

lemma mem_aIds {x : Nat} {l : List FH} :
    x ∈ aIds l ↔ ∃ h, (h ∈ l ∧ h.awaiting = true) ∧ h.id = x := by
  simp [aIds, List.mem_map, List.mem_filter]

lemma aIds_sub_cons (h : FH) (l : List FH) {x : Nat} (hx : x ∈ aIds l) :
    x ∈ aIds (h :: l) := by
  rcases mem_aIds.1 hx with ⟨g, ⟨hm, hw⟩, hid⟩
  exact mem_aIds.2 ⟨g, ⟨List.mem_cons_of_mem _ hm, hw⟩, hid⟩

lemma applyActions_no_invoke (acts : List Action) : ∀ (s : Pass.St) (x : Nat),
    PEv.invoke x ∉ (applyActions s acts).2 := by
  induction acts with
  | nil => intro s x; simp [applyActions]
  | cons a acts ih =>
    intro s x
    simp only [applyActions, List.mem_cons]
    rintro (hm | hm)
    · cases a with
      | dereg t => simp [applyAction] at hm
      | reg i fd iv cb =>
        by_cases he : s.remaining.isEmpty <;> simp [applyAction, he] at hm
    · exact ih _ x hm

lemma aIds_applyAction_sub (s : Pass.St) (a : Action) (x : Nat)
    (hx : x ∈ aIds (applyAction s a).1.remaining) : x ∈ aIds s.remaining := by
  cases a with
  | dereg t =>
    rcases mem_aIds.1 hx with ⟨h, ⟨hm, hw⟩, hid⟩
    have hm2 : h ∈ s.remaining ∧ ¬h.id = t := by
      simpa [applyAction, List.mem_filter] using hm
    exact mem_aIds.2 ⟨h, ⟨hm2.1, hw⟩, hid⟩
  | reg i fd iv cb =>
    by_cases he : s.remaining.isEmpty
    · simpa [applyAction, he] using hx
    · rcases mem_aIds.1 (by simpa [applyAction, he] using hx) with ⟨h, ⟨hm, hw⟩, hid⟩
      rcases List.mem_append.1 hm with hm | hm
      · exact mem_aIds.2 ⟨h, ⟨hm, hw⟩, hid⟩
      · simp at hm
        rw [hm] at hw
        simp at hw

lemma aIds_applyActions_sub (acts : List Action) : ∀ (s : Pass.St) (x : Nat),
    x ∈ aIds (applyActions s acts).1.remaining → x ∈ aIds s.remaining := by
  induction acts with
  | nil => intro s x hx; simpa [applyActions] using hx
  | cons a acts ih =>
    intro s x hx
    exact aIds_applyAction_sub s a x (ih _ x (by simpa [applyActions] using hx))

lemma aIds_applyAction_dereg (s : Pass.St) (t : Nat) :
    t ∉ aIds (applyAction s (.dereg t)).1.remaining := by
  intro hx
  rcases mem_aIds.1 hx with ⟨h, ⟨hm, hw⟩, hid⟩
  have hm2 : h ∈ s.remaining ∧ ¬h.id = t := by
    simpa [applyAction, List.mem_filter] using hm
  exact hm2.2 hid

lemma applyActions_dereg_removed (acts : List Action) : ∀ (s : Pass.St) (x : Nat),
    PEv.dereg x ∈ (applyActions s acts).2 →
    x ∉ aIds (applyActions s acts).1.remaining := by
  induction acts with
  | nil => intro s x hm; simp [applyActions] at hm
  | cons a acts ih =>
    intro s x hm
    simp only [applyActions, List.mem_cons] at hm
    rcases hm with hm | hm
    · cases a with
      | dereg t =>
        have ht : x = t := by simpa [applyAction] using hm
        subst ht
        intro hend
        exact aIds_applyAction_dereg s x
          (aIds_applyActions_sub acts _ x (by simpa [applyActions] using hend))
      | reg i fd iv cb =>
        by_cases he : s.remaining.isEmpty <;> simp [applyAction, he] at hm
    · intro hend
      exact ih _ x hm (by simpa [applyActions] using hend)

lemma applyActions_survive (acts : List Action) : ∀ (s : Pass.St) (h : FH), h ∈ s.remaining →
    h ∈ (applyActions s acts).1.remaining ∨ PEv.dereg h.id ∈ (applyActions s acts).2 := by
  induction acts with
  | nil => intro s h hm; exact Or.inl (by simpa [applyActions] using hm)
  | cons a acts ih =>
    intro s h hm
    cases a with
    | dereg t =>
      by_cases ht : h.id = t
      · right
        simp [applyActions, applyAction, ht]
      · have hm2 : h ∈ (applyAction s (.dereg t)).1.remaining := by
          simp only [applyAction]
          exact List.mem_filter.2 ⟨hm, by simpa using ht⟩
        rcases ih _ h hm2 with h1 | h1
        · left; simpa [applyActions] using h1
        · right
          simp only [applyActions, List.mem_cons]
          exact Or.inr h1
    | reg i fd iv cb =>
      have he : ¬ s.remaining.isEmpty := by
        cases hrem : s.remaining with
        | nil => rw [hrem] at hm; simp at hm
        | cons y ys => simp [hrem]
      have hm2 : h ∈ (applyAction s (.reg i fd iv cb)).1.remaining := by
        simp only [applyAction, if_neg he]
        exact List.mem_append.2 (Or.inl hm)
      rcases ih _ h hm2 with h1 | h1
      · left; simpa [applyActions] using h1
      · right
        simp only [applyActions, List.mem_cons]
        exact Or.inr h1

lemma applyActions_reg_origin (acts : List Action) : ∀ (s : Pass.St) (x : Nat),
    PEv.reg x ∈ (applyActions s acts).2 →
    ∃ a ∈ acts, ∃ fd iv cb, a = Action.reg x fd iv cb := by
  induction acts with
  | nil => intro s x hm; simp [applyActions] at hm
  | cons a acts ih =>
    intro s x hm
    simp only [applyActions, List.mem_cons] at hm
    rcases hm with hm | hm
    · cases a with
      | dereg t => simp [applyAction] at hm
      | reg i fd iv cb =>
        have hx : x = i := by
          by_cases he : s.remaining.isEmpty <;> simpa [applyAction, he] using hm
        subst hx
        exact ⟨.reg x fd iv cb, by simp, fd, iv, cb, rfl⟩
    · rcases ih _ x hm with ⟨a2, ha2, w⟩
      exact ⟨a2, List.mem_cons_of_mem _ ha2, w⟩

lemma applyActions_mem_remaining (acts : List Action) : ∀ (s : Pass.St) (h : FH),
    h ∈ (applyActions s acts).1.remaining → h ∈ s.remaining ∨ h.actions = [] := by
  induction acts with
  | nil => intro s h hm; exact Or.inl (by simpa [applyActions] using hm)
  | cons a acts ih =>
    intro s h hm
    rcases ih _ h (by simpa [applyActions] using hm) with h1 | h1
    · cases a with
      | dereg t =>
        have h2 : h ∈ s.remaining ∧ ¬h.id = t := by
          simpa [applyAction, List.mem_filter] using h1
        left
        exact h2.1
      | reg i fd iv cb =>
        by_cases he : s.remaining.isEmpty
        · left; simpa [applyAction, he] using h1
        · have h2 : h ∈ s.remaining ++ [⟨i, fd, iv, cb, false, []⟩] := by
            simpa [applyAction, he] using h1
          rcases List.mem_append.1 h2 with h3 | h3
          · left; exact h3
          · right
            simp at h3
            rw [h3]
    · right; exact h1

lemma runPass_invoke_origin (rd wr er : Nat → Bool) : ∀ (s : Pass.St) (x : Nat),
    PEv.invoke x ∈ (runPass rd wr er s).2 → x ∈ aIds s.remaining := by
  refine runPass.induct rd wr er
    (fun s => ∀ x, PEv.invoke x ∈ (runPass rd wr er s).2 → x ∈ aIds s.remaining)
    ?_ ?_ ?_ ?_
  · intro vis x hx
    rw [runPass_nil] at hx
    simp at hx
  · intro vis h rest ha hr ih x hx
    rw [runPass_invoke_eq rd wr er vis h rest ha hr] at hx
    simp only [List.mem_cons, List.mem_append] at hx
    rcases hx with hx | hx | hx
    · have : x = h.id := by simpa using hx
      subst this
      exact mem_aIds.2 ⟨h, ⟨List.mem_cons_self _ _, ha⟩, rfl⟩
    · exact absurd hx (applyActions_no_invoke h.actions _ x)
    · exact aIds_sub_cons h rest (aIds_applyActions_sub h.actions _ x (ih x hx))
  · intro vis h rest ha hr ih x hx
    rw [runPass_noready rd wr er vis h rest ha hr] at hx
    exact aIds_sub_cons h rest (ih x hx)
  · intro vis h rest ha ih x hx
    rw [runPass_skip rd wr er vis h rest ha] at hx
    exact aIds_sub_cons h rest (ih x hx)

lemma noIAD_of_no_invoke (l : List PEv) (h : ∀ x, PEv.invoke x ∉ l) :
    noInvokeAfterDereg l := by
  induction l with
  | nil => simp [noInvokeAfterDereg]
  | cons e tl ih =>
    have htl : ∀ x, PEv.invoke x ∉ tl := fun x hx => h x (List.mem_cons_of_mem _ hx)
    cases e with
    | invoke i => exact absurd (List.mem_cons_self _ _) (h i)
    | dereg i =>
      exact ⟨htl i, ih htl⟩
    | reg i =>
      simpa [noInvokeAfterDereg] using ih htl

lemma noIAD_append (u v : List PEv) (hu : noInvokeAfterDereg u) (hv : noInvokeAfterDereg v)
    (hx : ∀ x, PEv.dereg x ∈ u → PEv.invoke x ∉ v) : noInvokeAfterDereg (u ++ v) := by
  induction u with
  | nil => simpa using hv
  | cons e tl ih =>
    have htl : ∀ x, PEv.dereg x ∈ tl → PEv.invoke x ∉ v :=
      fun x hm => hx x (List.mem_cons_of_mem _ hm)
    cases e with
    | invoke i =>
      have hu2 : noInvokeAfterDereg tl := by simpa [noInvokeAfterDereg] using hu
      simpa [noInvokeAfterDereg] using ih hu2 htl
    | dereg i =>
      have hu2 : PEv.invoke i ∉ tl ∧ noInvokeAfterDereg tl := hu
      refine ⟨?_, ih hu2.2 htl⟩
      intro hmem
      rcases List.mem_append.1 hmem with hm | hm
      · exact hu2.1 hm
      · exact hx i (List.mem_cons_self _ _) hm
    | reg i =>
      have hu2 : noInvokeAfterDereg tl := by simpa [noInvokeAfterDereg] using hu
      simpa [noInvokeAfterDereg] using ih hu2 htl

lemma runPass_noIAD (rd wr er : Nat → Bool) : ∀ s : Pass.St,
    noInvokeAfterDereg (runPass rd wr er s).2 := by
  refine runPass.induct rd wr er
    (fun s => noInvokeAfterDereg (runPass rd wr er s).2) ?_ ?_ ?_ ?_
  · intro vis
    rw [runPass_nil]
    simp [noInvokeAfterDereg]
  · intro vis h rest ha hr ih
    rw [runPass_invoke_eq rd wr er vis h rest ha hr]
    have step : noInvokeAfterDereg
        ((applyActions ⟨vis ++ [{h with awaiting := false}], rest⟩ h.actions).2 ++
          (runPass rd wr er
            (applyActions ⟨vis ++ [{h with awaiting := false}], rest⟩ h.actions).1).2) := by
      refine noIAD_append _ _ ?_ ih ?_
      · exact noIAD_of_no_invoke _ (fun x => applyActions_no_invoke h.actions _ x)
      · intro x hdx hinv
        exact applyActions_dereg_removed h.actions _ x hdx
          (runPass_invoke_origin rd wr er _ x hinv)
    simpa [noInvokeAfterDereg] using step
  · intro vis h rest ha hr ih
    rw [runPass_noready rd wr er vis h rest ha hr]
    exact ih
  · intro vis h rest ha ih
    rw [runPass_skip rd wr er vis h rest ha]
    exact ih

lemma runPass_no_skip (rd wr er : Nat → Bool) : ∀ (s : Pass.St) (g : FH), g ∈ s.remaining →
    g.awaiting = true → FH.ready rd wr er g = true →
    PEv.invoke g.id ∈ (runPass rd wr er s).2 ∨ PEv.dereg g.id ∈ (runPass rd wr er s).2 := by
  refine runPass.induct rd wr er
    (fun s => ∀ g, g ∈ s.remaining → g.awaiting = true → FH.ready rd wr er g = true →
      PEv.invoke g.id ∈ (runPass rd wr er s).2 ∨ PEv.dereg g.id ∈ (runPass rd wr er s).2)
    ?_ ?_ ?_ ?_
  · intro vis g hg
    simp at hg
  · intro vis h rest ha hr ih g hg hga hgr
    rw [runPass_invoke_eq rd wr er vis h rest ha hr]
    rcases List.mem_cons.1 hg with hg | hg
    · subst hg
      left
      exact List.mem_cons_self _ _
    · have hg2 : g ∈ (⟨vis ++ [{h with awaiting := false}], rest⟩ : Pass.St).remaining := hg
      rcases applyActions_survive h.actions _ g hg2 with h1 | h1
      · rcases ih g h1 hga hgr with h2 | h2
        · left
          exact List.mem_cons_of_mem _ (List.mem_append.2 (Or.inr h2))
        · right
          exact List.mem_cons_of_mem _ (List.mem_append.2 (Or.inr h2))
      · right
        exact List.mem_cons_of_mem _ (List.mem_append.2 (Or.inl h1))
  · intro vis h rest ha hr ih g hg hga hgr
    rw [runPass_noready rd wr er vis h rest ha hr]
    rcases List.mem_cons.1 hg with hg | hg
    · subst hg
      exact absurd hgr hr
    · exact ih g hg hga hgr
  · intro vis h rest ha ih g hg hga hgr
    rw [runPass_skip rd wr er vis h rest ha]
    rcases List.mem_cons.1 hg with hg | hg
    · subst hg
      exact absurd hga ha
    · exact ih g hg hga hgr

lemma runPass_reg_origin (rd wr er : Nat → Bool) : ∀ (s : Pass.St) (x : Nat),
    PEv.reg x ∈ (runPass rd wr er s).2 →
    ∃ h, h ∈ s.remaining ∧ ∃ a ∈ h.actions, ∃ fd iv cb, a = Action.reg x fd iv cb := by
  refine runPass.induct rd wr er
    (fun s => ∀ x, PEv.reg x ∈ (runPass rd wr er s).2 →
      ∃ h, h ∈ s.remaining ∧ ∃ a ∈ h.actions, ∃ fd iv cb, a = Action.reg x fd iv cb)
    ?_ ?_ ?_ ?_
  · intro vis x hx
    rw [runPass_nil] at hx
    simp at hx
  · intro vis h rest ha hr ih x hx
    rw [runPass_invoke_eq rd wr er vis h rest ha hr] at hx
    simp only [List.mem_cons, List.mem_append] at hx
    rcases hx with hx | hx | hx
    · simp at hx
    · rcases applyActions_reg_origin h.actions _ x hx with ⟨a, hain, w⟩
      exact ⟨h, List.mem_cons_self _ _, a, hain, w⟩
    · rcases ih x hx with ⟨g, hgmem, a, hain, w⟩
      rcases applyActions_mem_remaining h.actions _ g hgmem with h1 | h1
      · exact ⟨g, List.mem_cons_of_mem _ h1, a, hain, w⟩
      · rw [h1] at hain
        simp at hain
  · intro vis h rest ha hr ih x hx
    rw [runPass_noready rd wr er vis h rest ha hr] at hx
    rcases ih x hx with ⟨g, hgmem, w⟩
    exact ⟨g, List.mem_cons_of_mem _ hgmem, w⟩
  · intro vis h rest ha ih x hx
    rw [runPass_skip rd wr er vis h rest ha] at hx
    rcases ih x hx with ⟨g, hgmem, w⟩
    exact ⟨g, List.mem_cons_of_mem _ hgmem, w⟩

/-- Claim C2: during one readiness-delivery pass over the file-handle
list, for any interleaving of registrations and deregistrations performed
by the invoked callbacks (with freshly-registered ids distinct from the
initial ids): (a) the callback of a handle is never invoked after that
handle's deregistration in the pass; (b) every handle that was present and
awaiting events before the pass began, whose interests intersect the
signalled sets, is invoked unless it is deregistered during the pass;
(c) a handle registered during the pass is never invoked in this pass
(its `isAwaitingEvents` flag is false until the next iteration's select
phase). -/
theorem dispatch_pass_safe (rd wr er : Nat → Bool) (hs : List FH)
    (hfresh : ∀ h ∈ hs, ∀ a ∈ h.actions, regFresh (hs.map FH.id) a = true) :
    noInvokeAfterDereg (runPass rd wr er ⟨[], hs⟩).2 ∧
    (∀ h ∈ hs, h.awaiting = true → FH.ready rd wr er h = true →
      PEv.dereg h.id ∉ (runPass rd wr er ⟨[], hs⟩).2 →
      PEv.invoke h.id ∈ (runPass rd wr er ⟨[], hs⟩).2) ∧
    (∀ x, PEv.reg x ∈ (runPass rd wr er ⟨[], hs⟩).2 →
      PEv.invoke x ∉ (runPass rd wr er ⟨[], hs⟩).2) := by
  refine ⟨runPass_noIAD rd wr er _, ?_, ?_⟩
  · intro h hm ha hr hnd
    rcases runPass_no_skip rd wr er ⟨[], hs⟩ h hm ha hr with h1 | h1
    · exact h1
    · exact absurd h1 hnd
  · intro x hreg hinv
    rcases runPass_reg_origin rd wr er ⟨[], hs⟩ x hreg with ⟨g, hgmem, a, hain, fd, iv, cb, hae⟩
    have hfr := hfresh g hgmem a hain
    rw [hae] at hfr
    simp only [regFresh, Bool.not_eq_true'] at hfr
    have hxin : x ∈ aIds hs := runPass_invoke_origin rd wr er ⟨[], hs⟩ x hinv
    rcases mem_aIds.1 hxin with ⟨g2, ⟨hg2, _⟩, hid⟩
    have hmem : x ∈ hs.map FH.id := List.mem_map.2 ⟨g2, hg2, hid⟩
    simp [List.contains, hmem] at hfr

/-- Witness for `dispatch_pass_safe` on `exHandles` (handle 1's callback
deregisters handle 2 and registers a fresh handle 5) with every descriptor
readable. -/
theorem dispatch_pass_safe_witness :
    (∀ h ∈ exHandles, ∀ a ∈ h.actions, regFresh (exHandles.map FH.id) a = true) ∧
    (noInvokeAfterDereg
        (runPass (fun _ => true) (fun _ => false) (fun _ => false) ⟨[], exHandles⟩).2 ∧
      (∀ h ∈ exHandles, h.awaiting = true →
        FH.ready (fun _ => true) (fun _ => false) (fun _ => false) h = true →
        PEv.dereg h.id ∉
          (runPass (fun _ => true) (fun _ => false) (fun _ => false) ⟨[], exHandles⟩).2 →
        PEv.invoke h.id ∈
          (runPass (fun _ => true) (fun _ => false) (fun _ => false) ⟨[], exHandles⟩).2) ∧
      (∀ x, PEv.reg x ∈
          (runPass (fun _ => true) (fun _ => false) (fun _ => false) ⟨[], exHandles⟩).2 →
        PEv.invoke x ∉
          (runPass (fun _ => true) (fun _ => false) (fun _ => false) ⟨[], exHandles⟩).2)) :=
  ⟨by decide,
   dispatch_pass_safe (fun _ => true) (fun _ => false) (fun _ => false) exHandles (by decide)⟩

end HomekitBridge
